import Mathlib

/-!
# Verification of the usysconf state tracker (src/state.c)

Shallow embedding of the state tracker in `src/state.c`: an in-memory chain of
(path, mtime) entries with serialization to a line-oriented state file and a
freshness predicate.  Paths and file contents are modelled as `List Char`
(C strings without the terminating NUL); `time_t` is modelled as a mathematical
`Int` (no claim here exercises 64-bit overflow).  The filesystem calls used by
the code (`realpath`, `stat` / `usc_file_mtime`, `usc_file_exists`) are an
external facade and are modelled as an explicit `Fs` record of oracles.
-/

set_option autoImplicit false

namespace Usysconf

/-- `UscStateEntry` (state.c:31): one node of the chain.  The `next` pointer
becomes the list structure; `ptr` is never NULL for a live node (both
allocation paths check), so it is a plain `List Char` here. -/
structure UscStateEntry where
  ptr : List Char
  mtime : Int
  deriving Repr, DecidableEq

/-- The tracker's chain of entries (`UscStateTracker.entry`, state.c:40).
The state-file binding is passed separately where needed. -/
abbrev Tracker := List UscStateEntry

/-- Filesystem facade consumed by state.c: `realpath(3)`, the mtime read
(`stat` in push_path, `usc_file_mtime` in needs_update - both report the
file's st_mtime) and `usc_file_exists`. -/
structure Fs where
  realpath : List Char → Option (List Char)
  fileMtime : List Char → Option Int
  fileExists : List Char → Bool

/-- `usc_state_tracker_lookup` (state.c:62): linear scan for the first entry
whose `ptr` compares equal (`strcmp == 0`) to `path`.  The `entry->ptr &&`
guard is vacuous here because every live entry has a non-NULL `ptr`. -/
def usc_state_tracker_lookup : Tracker → List Char → Option UscStateEntry
  | [], _ => none
  | e :: rest, path =>
      if e.ptr = path then some e else usc_state_tracker_lookup rest path

/-- In-place mtime overwrite of the first entry matching `path`
(the `entry->mtime = mtime` branch of put_entry, state.c:82). -/
def putEntryUpdate : Tracker → List Char → Int → Tracker
  | [], _, _ => []
  | e :: rest, path, m =>
      if e.ptr = path then { e with mtime := m } :: rest
      else e :: putEntryUpdate rest path m

/-- `usc_state_tracker_put_entry` (state.c:75).  `callocOk` and `strdupOk`
model the two allocation points (state.c:87 and state.c:92); when either
fails the C code returns false having changed nothing (the freshly calloc'd
node is freed before the list is touched).  On success the new node is
pushed at the head ("Merge list reversed"). -/
def usc_state_tracker_put_entry (callocOk strdupOk : Bool) (t : Tracker)
    (path : List Char) (mtime : Int) : Bool × Tracker :=
  match usc_state_tracker_lookup t path with
  | some _ => (true, putEntryUpdate t path mtime)
  | none =>
      if !callocOk then (false, t)
      else if !strdupOk then (false, t)
      else (true, ⟨path, mtime⟩ :: t)

/-- `usc_state_tracker_push_path` (state.c:106): canonicalize with
`realpath`, `stat` the canonical path, then insert/update. -/
def usc_state_tracker_push_path (fs : Fs) (callocOk strdupOk : Bool)
    (t : Tracker) (path : List Char) : Bool × Tracker :=
  match fs.realpath path with
  | none => (false, t)
  | some dup =>
      match fs.fileMtime dup with
      | none => (false, t)
      | some m => usc_state_tracker_put_entry callocOk strdupOk t dup m

/-- `usc_state_tracker_needs_update` (state.c:283), with the tracker threaded
through to make the (absent) state effect explicit: the C function only reads
the chain, so every exit path returns the tracker it was given. -/
def usc_state_tracker_needs_update (fs : Fs) (t : Tracker) (path : List Char)
    (force : Bool) : Bool × Tracker :=
  match fs.realpath path with
  | none => (false, t)
  | some real =>
      match usc_state_tracker_lookup t real with
      | none => (true, t)
      | some entry =>
          match fs.fileMtime real with
          | none => (true, t)
          | some mtime =>
              if force then (true, t)
              else if entry.mtime < mtime then (true, t)
              else (false, t)

/-! ## The state file: serializer (write) and parser (load) -/

/-- The comment header emitted by `usc_state_tracker_write` (state.c:160),
without its trailing newline. -/
def headerLine : List Char := "# This file is automatically generated. DO NOT EDIT".data

/-- One decimal digit character, as produced by printf for a digit value.
Total; only applied to values below 10. -/
def digitChar : Nat → Char
  | 0 => '0' | 1 => '1' | 2 => '2' | 3 => '3' | 4 => '4'
  | 5 => '5' | 6 => '6' | 7 => '7' | 8 => '8' | _ => '9'

/-- Decimal digits of a positive number, most significant first (empty for
0); fuel-driven so that it reduces definitionally.  `natDigitsCore fuel n acc`
prepends the digits of `n` to `acc`, correct whenever `n ≤ fuel`. -/
def natDigitsCore : Nat → Nat → List Char → List Char
  | _, 0, acc => acc
  | 0, _ + 1, acc => acc
  | fuel + 1, n + 1, acc =>
      natDigitsCore fuel ((n + 1) / 10) (digitChar ((n + 1) % 10) :: acc)

/-- Proof-side twin of `natDigitsCore`: digits of `n`, most significant
first, empty for 0. -/
def digitsRec : Nat → List Char
  | 0 => []
  | n + 1 => digitsRec ((n + 1) / 10) ++ [digitChar ((n + 1) % 10)]
  decreasing_by exact Nat.div_lt_self (by omega) (by omega)

/-- Decimal digits of a natural number, most significant first, no leading
zeros (and `"0"` for 0), as printf renders the magnitude. -/
def natDigits (n : Nat) : List Char :=
  if n = 0 then ['0'] else natDigitsCore n n []

/-- Model of `fprintf(fp, "%ld", mtime)` (state.c:168): optional minus sign
followed by the decimal digits of the magnitude. -/
def fprintfLd (m : Int) : List Char :=
  if m < 0 then '-' :: natDigits (-m).toNat else natDigits m.toNat

/-- The record lines of `usc_state_tracker_write` (state.c:163): one
`<mtime>:<path>\n` line per entry whose path still exists on disk; entries
whose path has disappeared are dropped.  (The `!entry->ptr` guard is vacuous:
live entries have non-NULL `ptr`.) -/
def writeRecords (fs : Fs) : Tracker → List Char
  | [] => []
  | e :: rest =>
      if fs.fileExists e.ptr then
        fprintfLd e.mtime ++ ':' :: e.ptr ++ '\n' :: writeRecords fs rest
      else writeRecords fs rest

/-- `usc_state_tracker_write` (state.c:145), success path: the bytes written
to the state file - the header line then one record line per live entry.
The mkdir/fopen/fprintf failure exits (which write nothing useful and return
false) are not needed by any claim and are not modelled. -/
def usc_state_tracker_write (fs : Fs) (t : Tracker) : List Char :=
  headerLine ++ '\n' :: writeRecords fs t

/-- `getline` chunking (state.c:201): the file's bytes cut after every
newline; every chunk is nonempty, every chunk but possibly the last ends in
`'\n'`, and a trailing empty chunk is EOF, not a line. -/
def splitLines : List Char → List (List Char)
  | [] => []
  | c :: cs =>
      if c = '\n' then ['\n'] :: splitLines cs
      else
        match splitLines cs with
        | [] => [[c]]
        | l :: ls => (c :: l) :: ls

/-- `memchr(bfr, ':', read)` followed by splitting at that first colon
(state.c:221, 234, 237): `none` when the line has no colon, otherwise the
substrings strictly before and strictly after the first colon. -/
def colonSplit : List Char → Option (List Char × List Char)
  | [] => none
  | c :: cs =>
      if c = ':' then some ([], cs)
      else (colonSplit cs).map (fun p => (c :: p.1, p.2))

/-- `isspace` in the C locale, as consulted by `strtoll`. -/
def isSpaceC (c : Char) : Bool :=
  c = ' ' || c = '\t' || c = '\n' || c = '\x0b' || c = '\x0c' || c = '\r'

/-- The digit-accumulation loop of `strtoll`: consume leading decimal digits
into an accumulator, stopping at the first non-digit. -/
def foldDigits : Nat → List Char → Nat
  | a, [] => a
  | a, c :: cs =>
      if 48 ≤ c.toNat ∧ c.toNat ≤ 57 then foldDigits (10 * a + (c.toNat - 48)) cs
      else a

/-- `strtoll(bfr, &part, 10)` (state.c:239): skip leading whitespace, accept
an optional sign, consume leading digits; with no digits the result is 0.
`strtoll` always stores a non-NULL end pointer into `part`, so the
`if (!part)` error branch at state.c:240 is unreachable and the parse is
total.  Overflow clamping is not modelled (mtimes stay far below LLONG_MAX). -/
def strtollChars (s : List Char) : Int :=
  match s.dropWhile isSpaceC with
  | [] => 0
  | c :: rest =>
      if c = '-' then -(foldDigits 0 rest : Int)
      else if c = '+' then (foldDigits 0 rest : Int)
      else (foldDigits 0 (c :: rest) : Int)

/-- Outcome of one iteration of the load loop body for one getline chunk. -/
inductive LineResult where
  | err : LineResult
  | skip : LineResult
  | put : List Char → Int → LineResult
  deriving Repr, DecidableEq

/-- The newline strip at state.c:211: drop one trailing `'\n'` if present. -/
def stripNewline (bfr0 : List Char) : List Char :=
  if bfr0.getLast? = some '\n' then bfr0.dropLast else bfr0

/-- The rest of the load loop body after the newline strip (state.c:217-250):
skip comment lines starting with `#`, require a colon (`memchr`), reject a
colon at offset 0 (`c - bfr < 1`), parse the mtime with `strtoll` (total -
see `strtollChars`), silently drop lines whose path no longer exists, and
otherwise hand the (path, mtime) pair to put_entry. -/
def parseStripped (fs : Fs) (bfr : List Char) : LineResult :=
  if bfr.head? = some '#' then .skip
  else
    match colonSplit bfr with
    | none => .err
    | some (fst, snd) =>
        if fst.length < 1 then .err
        else
          let t := strtollChars fst
          if fs.fileExists snd then .put snd t else .skip

/-- The body of the load loop (state.c:201-257) for one getline chunk `bfr0`
(nonempty by the `getline > 0` guard). -/
def parseLine (fs : Fs) (bfr0 : List Char) : LineResult :=
  parseStripped fs (stripNewline bfr0)

/-- The load loop (state.c:201): process chunks in order; `.err` sets errno
and breaks out (first component false), otherwise entries are merged via
put_entry.  Allocation inside load is not a claim here, so put_entry is run
with both allocations succeeding. -/
def loadLoop (fs : Fs) : Tracker → List (List Char) → Bool × Tracker
  | t, [] => (true, t)
  | t, line :: rest =>
      match parseLine fs line with
      | .err => (false, t)
      | .skip => loadLoop fs t rest
      | .put p m => loadLoop fs ((usc_state_tracker_put_entry true true t p m).2) rest

/-- Result of `fopen(state_file, "r")` at the top of load (state.c:184):
missing file, some other open failure, or the file's contents. -/
inductive OpenResult where
  | enoent : OpenResult
  | otherErr : OpenResult
  | ok : List Char → OpenResult
  deriving Repr, DecidableEq

/-- `usc_state_tracker_load` (state.c:177): a missing state file is success
with the tracker untouched; any other open failure is failure with the
tracker untouched; otherwise run the line loop and, if it broke with errno
set, free the whole chain (state.c:274) and fail. -/
def usc_state_tracker_load (fs : Fs) (stateFile : OpenResult) (t : Tracker) :
    Bool × Tracker :=
  match stateFile with
  | .enoent => (true, t)
  | .otherErr => (false, t)
  | .ok content =>
      match loadLoop fs t (splitLines content) with
      | (false, _) => (false, [])
      | (true, t2) => (true, t2)

/-! ## Auxiliary views used by the round-trip proof -/

/-- The (path, mtime) pairs `write` emits, in chain order: the entries whose
path still exists on disk. -/
def writtenEntries (fs : Fs) : Tracker → List (List Char × Int)
  | [] => []
  | e :: rest =>
      if fs.fileExists e.ptr then (e.ptr, e.mtime) :: writtenEntries fs rest
      else writtenEntries fs rest

/-- The record line `write` emits for one (path, mtime) pair. -/
def recordLine (r : List Char × Int) : List Char :=
  fprintfLd r.2 ++ ':' :: r.1 ++ ['\n']

/-- Merging a list of (path, mtime) pairs into a tracker through put_entry,
allocation succeeding. -/
def foldPuts (t : Tracker) (rs : List (List Char × Int)) : Tracker :=
  rs.foldl (fun acc r => (usc_state_tracker_put_entry true true acc r.1 r.2).2) t

/-! ## Operation sequences over a tracker -/

/-- One tracker-mutating operation: a record-path call (with its two
allocation outcomes) or a load call (with its fopen outcome). -/
inductive Op where
  | push : Bool → Bool → List Char → Op
  | loadFile : OpenResult → Op

/-- Run a sequence of operations left to right, each op acting on the
tracker the previous one left behind (failed ops leave it unchanged, or -
for a load that hit a parse error - empty). -/
def runOps (fs : Fs) : Tracker → List Op → Tracker
  | t, [] => t
  | t, .push c s p :: ops =>
      runOps fs (usc_state_tracker_push_path fs c s t p).2 ops
  | t, .loadFile r :: ops =>
      runOps fs (usc_state_tracker_load fs r t).2 ops

/-- Run a sequence of record-path calls, each acting on the tracker the
previous one left behind (allocation succeeding throughout). -/
def runPushes (fs : Fs) : Tracker → List (List Char) → Tracker
  | t, [] => t
  | t, p :: ps =>
      runPushes fs (usc_state_tracker_push_path fs true true t p).2 ps

/-- Every record-path call in the sequence reports success. -/
def runPushesAllOk (fs : Fs) : Tracker → List (List Char) → Bool
  | _, [] => true
  | t, p :: ps =>
      (usc_state_tracker_push_path fs true true t p).1 &&
        runPushesAllOk fs (usc_state_tracker_push_path fs true true t p).2 ps

/-- The path strings of a tracker's entries, in chain order. -/
def paths (t : Tracker) : List (List Char) := t.map (fun e => e.ptr)

/-- The tracker invariant of spec §3: no two entries share a path. -/
def PathsUnique (t : Tracker) : Prop := (paths t).Nodup

/-! ## Concrete filesystems used by closed theorems and witnesses -/

/-- A filesystem on which every call fails / nothing exists. -/
def fsNone : Fs where
  realpath := fun _ => none
  fileMtime := fun _ => none
  fileExists := fun _ => false

/-- A small concrete filesystem: `/x` and `/y` exist, `/x` canonicalizes to
itself with mtime 42. -/
def fsDemo : Fs where
  realpath := fun p => if p = "/x".data then some p else none
  fileMtime := fun p => if p = "/x".data then some 42 else none
  fileExists := fun p => p = "/x".data || p = "/y".data

/-- A filesystem where every path is its own canonical form and exists;
`/m` has no readable mtime, every other path has mtime 10. -/
def fsSome : Fs where
  realpath := fun p => some p
  fileMtime := fun p => if p = "/m".data then none else some 10
  fileExists := fun _ => true

/-! ## Helper lemmas -/

/-- `needs_update` hands back the tracker it was given on every exit path. -/
theorem needs_update_snd_eq (fs : Fs) (t : Tracker) (p : List Char)
    (force : Bool) : (usc_state_tracker_needs_update fs t p force).2 = t := by
  rcases h1 : fs.realpath p with _ | real
  · simp [usc_state_tracker_needs_update, h1]
  · rcases h2 : usc_state_tracker_lookup t real with _ | entry
    · simp [usc_state_tracker_needs_update, h1, h2]
    · rcases h3 : fs.fileMtime real with _ | m
      · simp [usc_state_tracker_needs_update, h1, h2, h3]
      · by_cases hf : force <;> by_cases hm : entry.mtime < m <;>
          simp [usc_state_tracker_needs_update, h1, h2, h3, hf, hm]

/-- Updating an mtime in place never changes the path list. -/
theorem paths_putEntryUpdate (p : List Char) (m : Int) (t : Tracker) :
    paths (putEntryUpdate t p m) = paths t := by
  induction t with
  | nil => rfl
  | cons e rest ih =>
      by_cases h : e.ptr = p
      · simp [putEntryUpdate, paths, h]
      · simp only [putEntryUpdate, if_neg h, paths, List.map_cons]
        rw [show List.map (fun e => e.ptr) (putEntryUpdate rest p m) =
          paths (putEntryUpdate rest p m) from rfl, ih]
        rfl

/-- The linear scan misses exactly when the path is not in the chain. -/
theorem lookup_eq_none_iff (t : Tracker) (p : List Char) :
    usc_state_tracker_lookup t p = none ↔ p ∉ paths t := by
  induction t with
  | nil => simp [usc_state_tracker_lookup, paths]
  | cons e rest ih =>
      by_cases h : e.ptr = p
      · simp [usc_state_tracker_lookup, paths, h]
      · have hl : usc_state_tracker_lookup (e :: rest) p =
            usc_state_tracker_lookup rest p := by
          simp [usc_state_tracker_lookup, h]
        rw [hl, ih]
        constructor
        · intro hn hmem
          rcases List.mem_cons.mp hmem with h1 | h1
          · exact h h1.symm
          · exact hn h1
        · exact fun hn hmem => hn (List.mem_cons_of_mem _ hmem)

/-- A hit of the linear scan returns an entry carrying the looked-up path,
which therefore occurs in the chain. -/
theorem lookup_some (p : List Char) (e : UscStateEntry) : ∀ t : Tracker,
    usc_state_tracker_lookup t p = some e → e.ptr = p ∧ p ∈ paths t
  | [], h => by simp [usc_state_tracker_lookup] at h
  | e0 :: rest, h => by
      by_cases h0 : e0.ptr = p
      · have he : e0 = e := by
          simpa [usc_state_tracker_lookup, h0] using h
        subst he
        exact ⟨h0, h0 ▸ List.mem_cons_self _ _⟩
      · have h' : usc_state_tracker_lookup rest p = some e := by
          simpa [usc_state_tracker_lookup, h0] using h
        rcases lookup_some p e rest h' with ⟨h1, h2⟩
        exact ⟨h1, List.mem_cons_of_mem _ h2⟩

/-- put_entry on a present path is the in-place update and succeeds. -/
theorem put_entry_paths_of_some (c s : Bool) (t : Tracker) (p : List Char)
    (m : Int) (e : UscStateEntry)
    (h : usc_state_tracker_lookup t p = some e) :
    usc_state_tracker_put_entry c s t p m = (true, putEntryUpdate t p m) := by
  simp [usc_state_tracker_put_entry, h]

/-- put_entry on an absent path (allocation succeeding) pushes a fresh
entry at the head. -/
theorem put_entry_of_none (t : Tracker) (p : List Char) (m : Int)
    (h : usc_state_tracker_lookup t p = none) :
    usc_state_tracker_put_entry true true t p m = (true, ⟨p, m⟩ :: t) := by
  simp [usc_state_tracker_put_entry, h]

/-- After an in-place update the scan finds the fresh mtime. -/
theorem lookup_putEntryUpdate_self (p : List Char) (m : Int) :
    ∀ (t : Tracker) (e : UscStateEntry),
      usc_state_tracker_lookup t p = some e →
      usc_state_tracker_lookup (putEntryUpdate t p m) p = some ⟨p, m⟩
  | [], e, h => by simp [usc_state_tracker_lookup] at h
  | e0 :: rest, e, h => by
      by_cases h0 : e0.ptr = p
      · simp [putEntryUpdate, usc_state_tracker_lookup, h0]
      · have h' : usc_state_tracker_lookup rest p = some e := by
          simpa [usc_state_tracker_lookup, h0] using h
        simpa [putEntryUpdate, usc_state_tracker_lookup, h0] using
          lookup_putEntryUpdate_self p m rest e h'

/-- put_entry preserves path uniqueness, whatever the allocation flags. -/
theorem pathsUnique_put_entry (c s : Bool) (t : Tracker) (p : List Char)
    (m : Int) (h : PathsUnique t) :
    PathsUnique (usc_state_tracker_put_entry c s t p m).2 := by
  rcases hl : usc_state_tracker_lookup t p with _ | e
  · have hp : p ∉ paths t := (lookup_eq_none_iff t p).mp hl
    cases c <;> cases s <;>
      simp_all [usc_state_tracker_put_entry, PathsUnique, paths]
  · rw [put_entry_paths_of_some c s t p m e hl]
    show PathsUnique (putEntryUpdate t p m)
    unfold PathsUnique
    rw [paths_putEntryUpdate]
    exact h

/-- record-path preserves path uniqueness. -/
theorem pathsUnique_push (fs : Fs) (c s : Bool) (t : Tracker) (p : List Char)
    (h : PathsUnique t) :
    PathsUnique (usc_state_tracker_push_path fs c s t p).2 := by
  rcases h1 : fs.realpath p with _ | dup
  · simpa [usc_state_tracker_push_path, h1] using h
  · rcases h2 : fs.fileMtime dup with _ | m
    · simpa [usc_state_tracker_push_path, h1, h2] using h
    · simpa [usc_state_tracker_push_path, h1, h2] using
        pathsUnique_put_entry c s t dup m h

/-- The load loop preserves path uniqueness. -/
theorem pathsUnique_loadLoop (fs : Fs) : ∀ (lines : List (List Char))
    (t : Tracker), PathsUnique t → PathsUnique (loadLoop fs t lines).2
  | [], _, h => h
  | line :: rest, t, h => by
      rcases hp : parseLine fs line with _ | _ | ⟨p, m⟩
      · simpa [loadLoop, hp] using h
      · simpa [loadLoop, hp] using pathsUnique_loadLoop fs rest t h
      · simpa [loadLoop, hp] using pathsUnique_loadLoop fs rest _
          (pathsUnique_put_entry true true t p m h)

/-- load preserves path uniqueness (a failed load leaves the empty chain). -/
theorem pathsUnique_load (fs : Fs) (r : OpenResult) (t : Tracker)
    (h : PathsUnique t) : PathsUnique (usc_state_tracker_load fs r t).2 := by
  rcases r with _ | _ | content
  · exact h
  · exact h
  · rcases hl : loadLoop fs t (splitLines content) with ⟨ok, t2⟩
    cases ok
    · simp [usc_state_tracker_load, hl, PathsUnique, paths]
    · have h2 := pathsUnique_loadLoop fs (splitLines content) t h
      rw [hl] at h2
      simpa [usc_state_tracker_load, hl] using h2

/-- Any sequence of record-path and load operations preserves uniqueness. -/
theorem pathsUnique_runOps (fs : Fs) : ∀ (ops : List Op) (t : Tracker),
    PathsUnique t → PathsUnique (runOps fs t ops)
  | [], _, h => h
  | .push c s p :: ops, t, h =>
      pathsUnique_runOps fs ops _ (pathsUnique_push fs c s t p h)
  | .loadFile r :: ops, t, h =>
      pathsUnique_runOps fs ops _ (pathsUnique_load fs r t h)

/-- Sequences of record-path calls preserve uniqueness. -/
theorem pathsUnique_runPushes (fs : Fs) : ∀ (ps : List (List Char))
    (t : Tracker), PathsUnique t → PathsUnique (runPushes fs t ps)
  | [], _, h => h
  | p :: ps, t, h =>
      pathsUnique_runPushes fs ps _ (pathsUnique_push fs true true t p h)

/-- A successful record-path call canonicalized its input, statted the
canonical path, and handed both to put_entry. -/
theorem push_ok_shape (fs : Fs) (t : Tracker) (p : List Char)
    (h : (usc_state_tracker_push_path fs true true t p).1 = true) :
    ∃ r m, fs.realpath p = some r ∧ fs.fileMtime r = some m ∧
      (usc_state_tracker_push_path fs true true t p).2 =
        (usc_state_tracker_put_entry true true t r m).2 := by
  rcases h1 : fs.realpath p with _ | r
  · simp [usc_state_tracker_push_path, h1] at h
  · rcases h2 : fs.fileMtime r with _ | m
    · simp [usc_state_tracker_push_path, h1, h2] at h
    · exact ⟨r, m, rfl, h2, by simp [usc_state_tracker_push_path, h1, h2]⟩

/-- put_entry (allocation succeeding) adds exactly the inserted path to the
path set. -/
theorem put_entry_paths_toFinset (t : Tracker) (p : List Char) (m : Int) :
    (paths (usc_state_tracker_put_entry true true t p m).2).toFinset =
      insert p (paths t).toFinset := by
  rcases hl : usc_state_tracker_lookup t p with _ | e
  · simp [put_entry_of_none t p m hl, paths]
  · have hp : p ∈ paths t := (lookup_some p e t hl).2
    rw [put_entry_paths_of_some true true t p m e hl]
    show (paths (putEntryUpdate t p m)).toFinset = _
    rw [paths_putEntryUpdate]
    exact (Finset.insert_eq_self.mpr (List.mem_toFinset.mpr hp)).symm

/-- After a run of successful record-path calls the path set is the initial
path set together with the canonical forms of the inputs. -/
theorem runPushes_paths_toFinset (fs : Fs) : ∀ (ps : List (List Char))
    (t : Tracker), runPushesAllOk fs t ps = true →
    (paths (runPushes fs t ps)).toFinset =
      (paths t).toFinset ∪ (ps.filterMap fs.realpath).toFinset
  | [], t, _ => by simp [runPushes]
  | p :: ps, t, h => by
      rw [runPushesAllOk, Bool.and_eq_true] at h
      rcases h with ⟨h1, h2⟩
      rcases push_ok_shape fs t p h1 with ⟨r, m, hr, hm, hres⟩
      simp only [runPushes]
      rw [hres] at h2 ⊢
      rw [runPushes_paths_toFinset fs ps _ h2, put_entry_paths_toFinset,
        List.filterMap_cons_some hr, List.toFinset_cons,
        Finset.insert_union, Finset.union_insert]

/-- Count form of the uniqueness invariant, from the empty tracker. -/
theorem runPushes_length (fs : Fs) (ps : List (List Char))
    (h : runPushesAllOk fs [] ps = true) :
    (runPushes fs [] ps).length =
      ((ps.filterMap fs.realpath).toFinset).card := by
  have h1 := runPushes_paths_toFinset fs ps [] h
  have h2 : PathsUnique (runPushes fs [] ps) :=
    pathsUnique_runPushes fs ps [] (by simp [PathsUnique, paths])
  have h3 : (runPushes fs [] ps).length =
      (paths (runPushes fs [] ps)).length := by simp [paths]
  rw [h3, ← List.toFinset_card_of_nodup h2, h1]
  simp [paths]

/-! ## Decimal printing and parsing round-trip -/

/-- digitChar of a value below 10 is the corresponding ASCII digit. -/
theorem digitChar_toNat (d : Nat) (h : d ≤ 9) :
    (digitChar d).toNat = 48 + d := by
  interval_cases d <;> decide

/-- Every character `digitsRec` produces is an ASCII digit. -/
theorem digitsRec_all_digits (n : Nat) : ∀ c ∈ digitsRec n,
    48 ≤ c.toNat ∧ c.toNat ≤ 57 := by
  induction n using Nat.strong_induction_on with
  | _ n ih =>
    match n with
    | 0 => intro c hc; simp [digitsRec] at hc
    | m + 1 =>
        intro c hc
        simp only [digitsRec] at hc
        rcases List.mem_append.mp hc with h1 | h1
        · exact ih ((m + 1) / 10) (Nat.div_lt_self (by omega) (by omega)) c h1
        · have hc2 : c = digitChar ((m + 1) % 10) := by simpa using h1
          subst hc2
          have h9 : (m + 1) % 10 ≤ 9 := by omega
          rw [digitChar_toNat _ h9]
          omega

/-- The fuel-driven digit renderer agrees with its proof-side twin whenever
it has enough fuel. -/
theorem natDigitsCore_eq : ∀ (fuel n : Nat) (acc : List Char), n ≤ fuel →
    natDigitsCore fuel n acc = digitsRec n ++ acc
  | _, 0, acc, _ => by simp [natDigitsCore, digitsRec]
  | 0, n + 1, _, h => by omega
  | fuel + 1, n + 1, acc, h => by
      have hle : (n + 1) / 10 ≤ fuel := by
        have := Nat.div_lt_self (show 0 < n + 1 by omega)
          (show 1 < 10 by omega)
        omega
      simp only [natDigitsCore]
      rw [natDigitsCore_eq fuel ((n + 1) / 10) _ hle]
      simp [digitsRec]

/-- `natDigits` of a positive number is `digitsRec`. -/
theorem natDigits_eq (n : Nat) (h : n ≠ 0) : natDigits n = digitsRec n := by
  rw [natDigits, if_neg h, natDigitsCore_eq n n [] (Nat.le_refl n),
    List.append_nil]

/-- Folding digits distributes over an all-digit front segment. -/
theorem foldDigits_append : ∀ ds : List Char,
    (∀ c ∈ ds, 48 ≤ c.toNat ∧ c.toNat ≤ 57) → ∀ (a : Nat) (rest : List Char),
    foldDigits a (ds ++ rest) = foldDigits (foldDigits a ds) rest
  | [], _, _, _ => rfl
  | c :: ds, h, a, rest => by
      have hc := h c (List.mem_cons_self c ds)
      simp only [List.cons_append, foldDigits, if_pos hc]
      exact foldDigits_append ds (fun d hd => h d (List.mem_cons_of_mem c hd))
        _ rest

/-- Folding a single digit character. -/
theorem foldDigits_single (b : Nat) (c : Char) (h1 : 48 ≤ c.toNat)
    (h2 : c.toNat ≤ 57) : foldDigits b [c] = 10 * b + (c.toNat - 48) := by
  simp [foldDigits, h1, h2]

/-- The digit fold inverts `digitsRec`, shifting the accumulator by the
printed width. -/
theorem foldDigits_digitsRec (n : Nat) : ∀ a : Nat,
    foldDigits a (digitsRec n) = a * 10 ^ (digitsRec n).length + n := by
  induction n using Nat.strong_induction_on with
  | _ n ih =>
    match n with
    | 0 => intro a; simp [digitsRec, foldDigits]
    | m + 1 =>
        intro a
        have hq : (m + 1) / 10 < m + 1 := Nat.div_lt_self (by omega) (by omega)
        have h9 : (m + 1) % 10 ≤ 9 := by omega
        have hdig : (digitChar ((m + 1) % 10)).toNat = 48 + (m + 1) % 10 :=
          digitChar_toNat _ h9
        simp only [digitsRec]
        rw [foldDigits_append _ (digitsRec_all_digits _) a _, ih _ hq a,
          foldDigits_single _ _ (by omega) (by omega), hdig,
          List.length_append, List.length_singleton]
        set L := (digitsRec ((m + 1) / 10)).length with hL
        have hmod : 10 * ((m + 1) / 10) + (m + 1) % 10 = m + 1 :=
          Nat.div_add_mod (m + 1) 10
        calc 10 * (a * 10 ^ L + (m + 1) / 10) + (48 + (m + 1) % 10 - 48)
            = 10 * (a * 10 ^ L + (m + 1) / 10) + (m + 1) % 10 := by omega
          _ = a * 10 ^ (L + 1) + (10 * ((m + 1) / 10) + (m + 1) % 10) := by
              rw [pow_succ]; ring
          _ = a * 10 ^ (L + 1) + (m + 1) := by rw [hmod]

/-- Every character `natDigits` produces is an ASCII digit. -/
theorem natDigits_all_digits (n : Nat) : ∀ c ∈ natDigits n,
    48 ≤ c.toNat ∧ c.toNat ≤ 57 := by
  by_cases h : n = 0
  · subst h; decide
  · rw [natDigits_eq n h]; exact digitsRec_all_digits n

/-- printf renders at least one character. -/
theorem natDigits_ne_nil (n : Nat) : natDigits n ≠ [] := by
  by_cases h : n = 0
  · subst h; decide
  · rw [natDigits_eq n h]
    match n, h with
    | m + 1, _ => simp [digitsRec]

/-- The digit fold inverts `natDigits`. -/
theorem foldDigits_natDigits (n : Nat) : foldDigits 0 (natDigits n) = n := by
  by_cases h : n = 0
  · subst h; decide
  · rw [natDigits_eq n h, foldDigits_digitsRec n 0]
    simp

/-- An ASCII digit is not whitespace and not a sign character. -/
theorem char_digit_head (c : Char) (h1 : 48 ≤ c.toNat) (h2 : c.toNat ≤ 57) :
    isSpaceC c = false ∧ c ≠ '-' ∧ c ≠ '+' := by
  refine ⟨?_, fun h => absurd h1 (by subst h; decide),
    fun h => absurd h1 (by subst h; decide)⟩
  simp only [isSpaceC, Bool.or_eq_false_iff, decide_eq_false_iff_not]
  refine ⟨⟨⟨⟨⟨fun h => ?_, fun h => ?_⟩, fun h => ?_⟩, fun h => ?_⟩,
    fun h => ?_⟩, fun h => ?_⟩ <;> exact absurd h1 (by subst h; decide)

/-- `strtoll` on a string whose first character is a digit is the plain
digit fold. -/
theorem strtoll_digit_list (c : Char) (cs : List Char)
    (h1 : 48 ≤ c.toNat) (h2 : c.toNat ≤ 57) :
    strtollChars (c :: cs) = (foldDigits 0 (c :: cs) : Int) := by
  rcases char_digit_head c h1 h2 with ⟨hs, hm, hp⟩
  rw [strtollChars, List.dropWhile_cons, if_neg (by simp [hs])]
  simp [hm, hp]

/-- `strtoll` inverts `natDigits`. -/
theorem strtoll_natDigits (n : Nat) : strtollChars (natDigits n) = (n : Int) := by
  rcases hd : natDigits n with _ | ⟨c, cs⟩
  · exact absurd hd (natDigits_ne_nil n)
  · have hc := natDigits_all_digits n c (by rw [hd]; exact List.mem_cons_self c cs)
    rw [strtoll_digit_list c cs hc.1 hc.2, ← hd, foldDigits_natDigits n]

/-- `strtoll` of a minus sign followed by anything negates the digit fold. -/
theorem strtoll_minus (rest : List Char) :
    strtollChars ('-' :: rest) = -(foldDigits 0 rest : Int) := by
  rw [strtollChars, List.dropWhile_cons, if_neg (by decide)]
  simp

/-- `strtoll` inverts the `%ld` rendering: the mtime that write prints is
the mtime load parses back. -/
theorem strtoll_fprintfLd (m : Int) : strtollChars (fprintfLd m) = m := by
  by_cases h : m < 0
  · rw [fprintfLd, if_pos h, strtoll_minus, foldDigits_natDigits]
    have h2 : (((-m).toNat : Int)) = -m := Int.toNat_of_nonneg (by omega)
    rw [h2]; ring
  · rw [fprintfLd, if_neg h, strtoll_natDigits]
    exact Int.toNat_of_nonneg (by omega)

/-- Every character of the `%ld` rendering is a digit or the minus sign. -/
theorem fprintfLd_chars (m : Int) : ∀ c ∈ fprintfLd m,
    (48 ≤ c.toNat ∧ c.toNat ≤ 57) ∨ c = '-' := by
  by_cases h : m < 0
  · rw [fprintfLd, if_pos h]
    intro c hc
    rcases List.mem_cons.mp hc with h1 | h1
    · exact Or.inr h1
    · exact Or.inl (natDigits_all_digits _ c h1)
  · rw [fprintfLd, if_neg h]
    exact fun c hc => Or.inl (natDigits_all_digits _ c hc)

/-- The `%ld` rendering is nonempty. -/
theorem fprintfLd_ne_nil (m : Int) : fprintfLd m ≠ [] := by
  by_cases h : m < 0 <;> simp [fprintfLd, h, natDigits_ne_nil]

/-- The `%ld` rendering contains no colon: the first colon of a record line
is the field separator write put there. -/
theorem fprintfLd_no_colon (m : Int) : ':' ∉ fprintfLd m := by
  intro h
  rcases fprintfLd_chars m ':' h with h1 | h1
  · exact absurd h1 (by decide)
  · exact absurd h1 (by decide)

/-- The `%ld` rendering contains no newline. -/
theorem fprintfLd_no_newline (m : Int) : '\n' ∉ fprintfLd m := by
  intro h
  rcases fprintfLd_chars m '\n' h with h1 | h1
  · exact absurd h1 (by decide)
  · exact absurd h1 (by decide)

/-- No character of the `%ld` rendering is the comment marker. -/
theorem fprintfLd_no_hash (m : Int) : ∀ c ∈ fprintfLd m, c ≠ '#' := by
  intro c hc h
  subst h
  rcases fprintfLd_chars m '#' hc with h1 | h1
  · exact absurd h1 (by decide)
  · exact absurd h1 (by decide)

/-! ## Line splitting and line parsing of written files -/

/-- Chunking splits exactly at an embedded newline. -/
theorem splitLines_append (rest : List Char) : ∀ l : List Char, '\n' ∉ l →
    splitLines (l ++ '\n' :: rest) = (l ++ ['\n']) :: splitLines rest
  | [], _ => by simp [splitLines]
  | c :: l, h => by
      have hc : ¬c = '\n' := fun hx => h (hx ▸ List.mem_cons_self c l)
      have ih := splitLines_append rest l
        (fun hm => h (List.mem_cons_of_mem c hm))
      simp [splitLines, hc, ih]

/-- Stripping the newline a writer just appended recovers the line. -/
theorem stripNewline_concat (l : List Char) :
    stripNewline (l ++ ['\n']) = l := by
  simp [stripNewline, List.getLast?_concat, List.dropLast_concat]

/-- The first colon of `a ++ ':' :: b` is the explicit one when `a` is
colon-free. -/
theorem colonSplit_append (b : List Char) : ∀ a : List Char, ':' ∉ a →
    colonSplit (a ++ ':' :: b) = some (a, b)
  | [], _ => by simp [colonSplit]
  | c :: a, h => by
      have hc : ¬c = ':' := fun hx => h (hx ▸ List.mem_cons_self c a)
      have ih := colonSplit_append b a
        (fun hm => h (List.mem_cons_of_mem c hm))
      simp [colonSplit, hc, ih]

/-- The header line write emits is skipped as a comment by load. -/
theorem parseLine_header (fs : Fs) :
    parseLine fs (headerLine ++ ['\n']) = .skip := by
  rw [parseLine, stripNewline_concat]
  rfl

/-- A record line write emits for an existing path parses back to exactly
the path and mtime that were written, colons in the path notwithstanding. -/
theorem parseLine_record (fs : Fs) (p : List Char) (m : Int)
    (hex : fs.fileExists p = true) :
    parseLine fs (recordLine (p, m)) = .put p m := by
  have hassoc : recordLine (p, m) = (fprintfLd m ++ ':' :: p) ++ ['\n'] := by
    simp [recordLine]
  rw [parseLine, hassoc, stripNewline_concat]
  have hsplit : colonSplit (fprintfLd m ++ ':' :: p) =
      some (fprintfLd m, p) :=
    colonSplit_append p (fprintfLd m) (fprintfLd_no_colon m)
  have hstr := strtoll_fprintfLd m
  rcases hfp : fprintfLd m with _ | ⟨c, cs⟩
  · exact absurd hfp (fprintfLd_ne_nil m)
  · have hch : ¬c = '#' :=
      fprintfLd_no_hash m c (by rw [hfp]; exact List.mem_cons_self c cs)
    rw [hfp] at hsplit hstr
    simp only [List.cons_append] at hsplit
    simp [parseStripped, hsplit, hch, hstr, hex]

/-- The load loop over the record lines of existing paths succeeds and is
the fold of put_entry over the written pairs. -/
theorem loadLoop_records (fs : Fs) : ∀ (rs : List (List Char × Int))
    (t : Tracker), (∀ r ∈ rs, fs.fileExists r.1 = true) →
    loadLoop fs t (rs.map recordLine) = (true, foldPuts t rs)
  | [], t, _ => by simp [loadLoop, foldPuts]
  | r :: rs, t, h => by
      have h1 := h r (List.mem_cons_self r rs)
      have ih := loadLoop_records fs rs
        ((usc_state_tracker_put_entry true true t r.1 r.2).2)
        (fun x hx => h x (List.mem_cons_of_mem r hx))
      rcases r with ⟨p, m⟩
      simp only [List.map_cons, loadLoop, parseLine_record fs p m h1]
      rw [ih]
      simp [foldPuts]

/-! ## Lookup after merging written pairs -/

/-- After put_entry the inserted path maps to the inserted mtime. -/
theorem lookup_put_self (t : Tracker) (p : List Char) (m : Int) :
    usc_state_tracker_lookup (usc_state_tracker_put_entry true true t p m).2 p
      = some ⟨p, m⟩ := by
  rcases hl : usc_state_tracker_lookup t p with _ | e
  · rw [put_entry_of_none t p m hl]
    simp [usc_state_tracker_lookup]
  · rw [put_entry_paths_of_some true true t p m e hl]
    exact lookup_putEntryUpdate_self p m t e hl

/-- An in-place update of one path leaves lookups of other paths alone. -/
theorem lookup_putEntryUpdate_other (p q : List Char) (m : Int)
    (hne : p ≠ q) : ∀ t : Tracker,
    usc_state_tracker_lookup (putEntryUpdate t p m) q =
      usc_state_tracker_lookup t q
  | [] => rfl
  | e :: rest => by
      by_cases h : e.ptr = p
      · have hq : ¬e.ptr = q := fun hx => hne (h ▸ hx)
        simp [putEntryUpdate, usc_state_tracker_lookup, h, hq, hne]
      · by_cases hq : e.ptr = q <;>
          simp [putEntryUpdate, usc_state_tracker_lookup, h, hq, hne,
            Ne.symm hne, lookup_putEntryUpdate_other p q m hne rest]

/-- put_entry of one path leaves lookups of other paths alone. -/
theorem lookup_put_other (t : Tracker) (p q : List Char) (m : Int)
    (hne : p ≠ q) :
    usc_state_tracker_lookup (usc_state_tracker_put_entry true true t p m).2 q
      = usc_state_tracker_lookup t q := by
  rcases hl : usc_state_tracker_lookup t p with _ | e
  · rw [put_entry_of_none t p m hl]
    simp [usc_state_tracker_lookup, hne]
  · rw [put_entry_paths_of_some true true t p m e hl]
    exact lookup_putEntryUpdate_other p q m hne t

/-- Merging pairs whose paths avoid `q` does not change the lookup of `q`. -/
theorem lookup_foldPuts_not_mem (q : List Char) :
    ∀ (rs : List (List Char × Int)) (t : Tracker), q ∉ rs.map Prod.fst →
    usc_state_tracker_lookup (foldPuts t rs) q =
      usc_state_tracker_lookup t q
  | [], _, _ => rfl
  | r :: rs, t, h => by
      rw [List.map_cons, List.mem_cons] at h
      push_neg at h
      have hstep : foldPuts t (r :: rs) =
          foldPuts (usc_state_tracker_put_entry true true t r.1 r.2).2 rs := rfl
      rw [hstep, lookup_foldPuts_not_mem q rs _ h.2,
        lookup_put_other _ _ _ _ (fun hx => h.1 hx.symm)]

/-- Merging pairs with distinct paths makes each merged pair visible to
lookup. -/
theorem lookup_foldPuts_mem (q : List Char) (m : Int) :
    ∀ (rs : List (List Char × Int)) (t : Tracker),
    (rs.map Prod.fst).Nodup → (q, m) ∈ rs →
    usc_state_tracker_lookup (foldPuts t rs) q = some ⟨q, m⟩
  | [], _, _, hmem => by simp at hmem
  | r :: rs, t, hnd, hmem => by
      rw [List.map_cons, List.nodup_cons] at hnd
      obtain ⟨hnotin, hnd2⟩ := hnd
      have hstep : foldPuts t (r :: rs) =
          foldPuts (usc_state_tracker_put_entry true true t r.1 r.2).2 rs := rfl
      rcases List.mem_cons.mp hmem with h1 | h1
      · have hr : r = (q, m) := h1.symm
        subst hr
        rw [hstep, lookup_foldPuts_not_mem q rs _ (by simpa using hnotin),
          lookup_put_self]
      · rw [hstep]
        exact lookup_foldPuts_mem q m rs _ hnd2 h1

/-! ## The written pairs -/

/-- Every written pair has an existing path. -/
theorem writtenEntries_exists_mem (fs : Fs) : ∀ (t : Tracker)
    (r : List Char × Int), r ∈ writtenEntries fs t →
    fs.fileExists r.1 = true
  | [], r, h => by simp [writtenEntries] at h
  | e :: rest, r, h => by
      by_cases hex : fs.fileExists e.ptr
      · simp only [writtenEntries, if_pos hex] at h
        rcases List.mem_cons.mp h with h1 | h1
        · rw [h1]; exact hex
        · exact writtenEntries_exists_mem fs rest r h1
      · simp only [writtenEntries, if_neg hex] at h
        exact writtenEntries_exists_mem fs rest r h

/-- An entry whose path exists is among the written pairs. -/
theorem mem_writtenEntries (fs : Fs) : ∀ (t : Tracker) (e : UscStateEntry),
    e ∈ t → fs.fileExists e.ptr = true →
    (e.ptr, e.mtime) ∈ writtenEntries fs t
  | [], e, h, _ => by simp at h
  | e0 :: rest, e, h, hex => by
      rcases List.mem_cons.mp h with h1 | h1
      · subst h1
        simp only [writtenEntries, if_pos hex]
        exact List.mem_cons_self _ _
      · by_cases hex0 : fs.fileExists e0.ptr
        · simp only [writtenEntries, if_pos hex0]
          exact List.mem_cons_of_mem _
            (mem_writtenEntries fs rest e h1 hex)
        · simp only [writtenEntries, if_neg hex0]
          exact mem_writtenEntries fs rest e h1 hex

/-- Paths of written pairs come from the tracker. -/
theorem writtenEntries_fst_mem (fs : Fs) : ∀ (t : Tracker) (q : List Char),
    q ∈ (writtenEntries fs t).map Prod.fst → q ∈ paths t
  | [], q, h => by simp [writtenEntries] at h
  | e :: rest, q, h => by
      by_cases hex : fs.fileExists e.ptr
      · simp only [writtenEntries, if_pos hex, List.map_cons,
          List.mem_cons] at h
        rcases h with h1 | h1
        · exact h1 ▸ List.mem_cons_self _ _
        · exact List.mem_cons_of_mem _
            (writtenEntries_fst_mem fs rest q h1)
      · simp only [writtenEntries, if_neg hex] at h
        exact List.mem_cons_of_mem _ (writtenEntries_fst_mem fs rest q h)

/-- On a tracker with unique paths the written pairs have distinct paths. -/
theorem writtenEntries_fst_nodup (fs : Fs) : ∀ t : Tracker, PathsUnique t →
    ((writtenEntries fs t).map Prod.fst).Nodup
  | [], _ => by simp [writtenEntries]
  | e :: rest, h => by
      have hsplit : e.ptr ∉ paths rest ∧ PathsUnique rest := by
        unfold PathsUnique paths at h
        rw [List.map_cons, List.nodup_cons] at h
        exact ⟨h.1, h.2⟩
      by_cases hex : fs.fileExists e.ptr
      · simp only [writtenEntries, if_pos hex, List.map_cons,
          List.nodup_cons]
        exact ⟨fun hmem => hsplit.1 (writtenEntries_fst_mem fs rest e.ptr hmem),
          writtenEntries_fst_nodup fs rest hsplit.2⟩
      · simp only [writtenEntries, if_neg hex]
        exact writtenEntries_fst_nodup fs rest hsplit.2

/-- Record lines of a newline-free tracker chunk back into record lines. -/
theorem splitLines_writeRecords (fs : Fs) : ∀ t : Tracker,
    (∀ e ∈ t, '\n' ∉ e.ptr) →
    splitLines (writeRecords fs t) = (writtenEntries fs t).map recordLine
  | [], _ => rfl
  | e :: rest, h => by
      have he := h e (List.mem_cons_self e rest)
      have ih := splitLines_writeRecords fs rest
        (fun x hx => h x (List.mem_cons_of_mem e hx))
      by_cases hex : fs.fileExists e.ptr
      · have hnoNl : '\n' ∉ fprintfLd e.mtime ++ ':' :: e.ptr := by
          intro hm
          rcases List.mem_append.mp hm with h1 | h1
          · exact fprintfLd_no_newline e.mtime h1
          · rcases List.mem_cons.mp h1 with h2 | h2
            · exact absurd h2 (by decide)
            · exact he h2
        have hline : fprintfLd e.mtime ++ ':' :: e.ptr ++ '\n' ::
            writeRecords fs rest =
            (fprintfLd e.mtime ++ ':' :: e.ptr) ++ '\n' ::
              writeRecords fs rest := by
          simp [List.append_assoc]
        simp only [writeRecords, if_pos hex, writtenEntries, List.map_cons]
        rw [hline, splitLines_append _ _ hnoNl, ih]
        simp [recordLine, List.append_assoc]
      · simp only [writeRecords, if_neg hex, writtenEntries]
        exact ih

/-- The full written file chunks into the header line and the record
lines. -/
theorem splitLines_write (fs : Fs) (t : Tracker)
    (hnl : ∀ e ∈ t, '\n' ∉ e.ptr) :
    splitLines (usc_state_tracker_write fs t) =
      (headerLine ++ ['\n']) :: (writtenEntries fs t).map recordLine := by
  rw [usc_state_tracker_write,
    splitLines_append (writeRecords fs t) headerLine (by decide),
    splitLines_writeRecords fs t hnl]

end Usysconf

namespace Usysconf

/-! ## Claim theorems -/

/-- C1: `needs-update` follows the spec's decision table, first match
winning: canonicalize failure gives false; an unknown canonical path gives
true; an mtime read failure gives true; `force` gives true; a stored mtime
strictly below the observed one gives true; otherwise (stored ≥ observed)
false.  Whenever canonicalize succeeds, `force = true` yields true. -/
theorem C1_needs_update_decision_table (fs : Fs) (t : Tracker)
    (p real : List Char) (e : UscStateEntry) (m : Int) (force : Bool) :
    (fs.realpath p = none →
      (usc_state_tracker_needs_update fs t p force).1 = false)
  ∧ (fs.realpath p = some real → usc_state_tracker_lookup t real = none →
      (usc_state_tracker_needs_update fs t p force).1 = true)
  ∧ (fs.realpath p = some real → usc_state_tracker_lookup t real = some e →
      fs.fileMtime real = none →
      (usc_state_tracker_needs_update fs t p force).1 = true)
  ∧ (fs.realpath p = some real → usc_state_tracker_lookup t real = some e →
      fs.fileMtime real = some m →
      (usc_state_tracker_needs_update fs t p true).1 = true)
  ∧ (fs.realpath p = some real → usc_state_tracker_lookup t real = some e →
      fs.fileMtime real = some m → e.mtime < m →
      (usc_state_tracker_needs_update fs t p false).1 = true)
  ∧ (fs.realpath p = some real → usc_state_tracker_lookup t real = some e →
      fs.fileMtime real = some m → m ≤ e.mtime →
      (usc_state_tracker_needs_update fs t p false).1 = false)
  ∧ (fs.realpath p = some real →
      (usc_state_tracker_needs_update fs t p true).1 = true) := by
  refine ⟨fun h1 => by simp [usc_state_tracker_needs_update, h1],
    fun h1 h2 => by simp [usc_state_tracker_needs_update, h1, h2],
    fun h1 h2 h3 => by simp [usc_state_tracker_needs_update, h1, h2, h3],
    fun h1 h2 h3 => by simp [usc_state_tracker_needs_update, h1, h2, h3],
    fun h1 h2 h3 h4 => by
      simp [usc_state_tracker_needs_update, h1, h2, h3, h4],
    fun h1 h2 h3 h4 => by
      simp [usc_state_tracker_needs_update, h1, h2, h3, not_lt.mpr h4],
    fun h1 => ?_⟩
  rcases h2 : usc_state_tracker_lookup t real with _ | entry
  · simp [usc_state_tracker_needs_update, h1, h2]
  · rcases h3 : fs.fileMtime real with _ | mt <;>
      simp [usc_state_tracker_needs_update, h1, h2, h3]

/-- Witness for C1: each row of the decision table exercised on concrete
filesystems and trackers. -/
theorem C1_witness :
    ((usc_state_tracker_needs_update fsNone [] "/a".data false).1 = false)
  ∧ ((usc_state_tracker_needs_update fsSome [] "/a".data false).1 = true)
  ∧ ((usc_state_tracker_needs_update fsSome [⟨"/m".data, 5⟩] "/m".data
        false).1 = true)
  ∧ ((usc_state_tracker_needs_update fsSome [⟨"/x".data, 99⟩] "/x".data
        true).1 = true)
  ∧ ((usc_state_tracker_needs_update fsSome [⟨"/x".data, 5⟩] "/x".data
        false).1 = true)
  ∧ ((usc_state_tracker_needs_update fsSome [⟨"/x".data, 99⟩] "/x".data
        false).1 = false) :=
  ⟨(C1_needs_update_decision_table fsNone [] "/a".data [] ⟨[], 0⟩ 0
      false).1 (by decide),
   (C1_needs_update_decision_table fsSome [] "/a".data "/a".data ⟨[], 0⟩ 0
      false).2.1 (by decide) (by decide),
   (C1_needs_update_decision_table fsSome [⟨"/m".data, 5⟩] "/m".data
      "/m".data ⟨"/m".data, 5⟩ 0 false).2.2.1 (by decide) (by decide)
      (by decide),
   (C1_needs_update_decision_table fsSome [⟨"/x".data, 99⟩] "/x".data
      "/x".data ⟨"/x".data, 99⟩ 10 false).2.2.2.1 (by decide) (by decide)
      (by decide),
   (C1_needs_update_decision_table fsSome [⟨"/x".data, 5⟩] "/x".data
      "/x".data ⟨"/x".data, 5⟩ 10 false).2.2.2.2.1 (by decide) (by decide)
      (by decide) (by decide),
   (C1_needs_update_decision_table fsSome [⟨"/x".data, 99⟩] "/x".data
      "/x".data ⟨"/x".data, 99⟩ 10 false).2.2.2.2.2.1 (by decide)
      (by decide) (by decide) (by decide)⟩

/-- C2: serialization round-trips, colons in paths included - write emits
each live entry as `<mtime>:<path>` and load splits at the FIRST colon, so
every recorded entry whose path contains a colon (and, for the file format
to be line-based, no newline) is recovered exactly - same path string, same
mtime - by a load of the written file into a fresh tracker, which
succeeds. -/
theorem C2_serialization_roundtrip (fs : Fs) (t : Tracker)
    (e : UscStateEntry) (he : e ∈ t) (hnl : ∀ x ∈ t, '\n' ∉ x.ptr)
    (hu : PathsUnique t) (hcolon : ':' ∈ e.ptr)
    (hex : fs.fileExists e.ptr = true) :
    (usc_state_tracker_load fs (.ok (usc_state_tracker_write fs t)) []).1
        = true
  ∧ usc_state_tracker_lookup
      (usc_state_tracker_load fs (.ok (usc_state_tracker_write fs t)) []).2
      e.ptr = some ⟨e.ptr, e.mtime⟩ := by
  have hsplit := splitLines_write fs t hnl
  have hloop := loadLoop_records fs (writtenEntries fs t) []
    (fun r hr => writtenEntries_exists_mem fs t r hr)
  have hload : usc_state_tracker_load fs
      (.ok (usc_state_tracker_write fs t)) [] =
      (true, foldPuts [] (writtenEntries fs t)) := by
    have hstep : usc_state_tracker_load fs
        (.ok (usc_state_tracker_write fs t)) [] =
        match loadLoop fs [] (splitLines (usc_state_tracker_write fs t)) with
        | (false, _) => (false, [])
        | (true, t2) => (true, t2) := rfl
    rw [hstep, hsplit]
    have hskip : loadLoop fs []
        ((headerLine ++ ['\n']) :: (writtenEntries fs t).map recordLine) =
        loadLoop fs [] ((writtenEntries fs t).map recordLine) := by
      simp only [loadLoop, parseLine_header fs]
    rw [hskip, hloop]
  rw [hload]
  exact ⟨rfl, lookup_foldPuts_mem e.ptr e.mtime (writtenEntries fs t) []
    (writtenEntries_fst_nodup fs t hu) (mem_writtenEntries fs t e he hex)⟩

/-- Witness for C2: the spec's S5 scenario - a tracker holding
`/tmp/a:b` with mtime 42 written out and loaded into a fresh tracker. -/
theorem C2_witness :
    ((usc_state_tracker_load fsSome
        (.ok (usc_state_tracker_write fsSome [⟨"/tmp/a:b".data, 42⟩]))
        []).1 = true)
  ∧ (usc_state_tracker_lookup
        (usc_state_tracker_load fsSome
          (.ok (usc_state_tracker_write fsSome [⟨"/tmp/a:b".data, 42⟩]))
          []).2 "/tmp/a:b".data = some ⟨"/tmp/a:b".data, 42⟩) :=
  C2_serialization_roundtrip fsSome [⟨"/tmp/a:b".data, 42⟩]
    ⟨"/tmp/a:b".data, 42⟩ (by decide) (by decide)
    (by unfold PathsUnique; decide) (by decide) (by decide)

/-- C3: evaluation of load at the scenario the claim quantifies over.  A
valid two-line state file loads fine, but inserting one blank line makes
`load` fail and clear the tracker: after the newline strip the empty buffer
falls through to the missing-colon check (state.c:221) and sets `errno`.
The `read < 1` skip at state.c:207 is dead code (`getline` returns at least
1 for a blank line), so the spec's "blank lines are skipped" never happens. -/
theorem C3_blank_line_is_fatal :
    (usc_state_tracker_load fsDemo
      (.ok "# This file is automatically generated. DO NOT EDIT\n42:/x\n".data)
      [] = (true, [⟨"/x".data, 42⟩]))
  ∧ (usc_state_tracker_load fsDemo
      (.ok "# This file is automatically generated. DO NOT EDIT\n\n42:/x\n".data)
      [] = (false, [])) := by decide

/-- C4: evaluation of load at the claim's own failing input.  The body
`5:/y\nnotanumber:/x\n` is accepted: `strtoll` stores a non-NULL end pointer
unconditionally, so the `if (!part)` check at state.c:240 can never fire and
`notanumber` silently parses as mtime 0; load returns success with both
entries merged instead of failing with the tracker emptied. -/
theorem C4_malformed_mtime_is_accepted :
    usc_state_tracker_load fsDemo (.ok "5:/y\nnotanumber:/x\n".data) [] =
      (true, [⟨"/x".data, 0⟩, ⟨"/y".data, 5⟩]) := by decide

/-- C5: evaluation of load at the claim's own failing input.  The guard
`c - bfr < 1` at state.c:228 rejects a colon at offset 0 - an empty MTIME
field - not an empty path, despite its "Missing filename" message; the line
`123:` yields path `""`, which merely fails the existence check and is
silently dropped, so load returns success with the tracker untouched
instead of failing with the tracker cleared. -/
theorem C5_empty_path_is_skipped :
    (usc_state_tracker_load fsDemo (.ok "123:\n".data) [⟨"/z".data, 7⟩] =
      (true, [⟨"/z".data, 7⟩]))
  ∧ (usc_state_tracker_load fsDemo (.ok ":/x\n".data) [] = (false, [])) := by
  decide

/-- C6: all-or-nothing load - whenever the line loop stops with a fatal
parse error, load discards every entry (pre-existing and freshly merged
alike), returns the tracker to empty, and reports failure. -/
theorem C6_load_all_or_nothing (fs : Fs) (content : List Char) (t : Tracker)
    (h : (usc_state_tracker_load fs (.ok content) t).1 = false) :
    (usc_state_tracker_load fs (.ok content) t).2 = [] := by
  rcases hl : loadLoop fs t (splitLines content) with ⟨ok, t2⟩
  cases ok <;> simp [usc_state_tracker_load, hl] at h ⊢

/-- Witness for C6: a missing-colon line fails a load that had already
merged a well-formed line onto a non-empty tracker, and the result is the
empty tracker. -/
theorem C6_witness :
    ((usc_state_tracker_load fsDemo (.ok "5:/y\nnocolon\n".data)
        [⟨"/z".data, 7⟩]).1 = false)
  ∧ ((usc_state_tracker_load fsDemo (.ok "5:/y\nnocolon\n".data)
        [⟨"/z".data, 7⟩]).2 = []) :=
  ⟨by decide,
   C6_load_all_or_nothing fsDemo "5:/y\nnocolon\n".data [⟨"/z".data, 7⟩]
     (by decide)⟩

/-- C7: record-path is atomic on failure - whenever
`usc_state_tracker_push_path` reports failure (canonicalize failed, stat
failed, or either allocation inside put_entry failed), the entry chain is
exactly what it was before the call. -/
theorem C7_push_path_atomic_on_failure (fs : Fs) (callocOk strdupOk : Bool)
    (t : Tracker) (p : List Char)
    (h : (usc_state_tracker_push_path fs callocOk strdupOk t p).1 = false) :
    (usc_state_tracker_push_path fs callocOk strdupOk t p).2 = t := by
  rcases h1 : fs.realpath p with _ | dup
  · simp [usc_state_tracker_push_path, h1]
  · rcases h2 : fs.fileMtime dup with _ | m
    · simp [usc_state_tracker_push_path, h1, h2]
    · rcases h3 : usc_state_tracker_lookup t dup with _ | e
      · cases callocOk <;> cases strdupOk <;>
          simp_all [usc_state_tracker_push_path,
            usc_state_tracker_put_entry, h1, h2, h3]
      · simp_all [usc_state_tracker_push_path,
          usc_state_tracker_put_entry, h1, h2, h3]

/-- Witness for C7: three concrete failures - canonicalize failure, stat
failure, and allocation failure - each leave a non-empty tracker intact. -/
theorem C7_witness :
    ((usc_state_tracker_push_path fsNone true true [⟨"/z".data, 7⟩]
        "/a".data).1 = false
      ∧ (usc_state_tracker_push_path fsNone true true [⟨"/z".data, 7⟩]
        "/a".data).2 = [⟨"/z".data, 7⟩])
  ∧ ((usc_state_tracker_push_path fsSome true true [⟨"/z".data, 7⟩]
        "/m".data).1 = false
      ∧ (usc_state_tracker_push_path fsSome true true [⟨"/z".data, 7⟩]
        "/m".data).2 = [⟨"/z".data, 7⟩])
  ∧ ((usc_state_tracker_push_path fsSome false true [⟨"/z".data, 7⟩]
        "/a".data).1 = false
      ∧ (usc_state_tracker_push_path fsSome false true [⟨"/z".data, 7⟩]
        "/a".data).2 = [⟨"/z".data, 7⟩]) :=
  ⟨⟨by decide, C7_push_path_atomic_on_failure fsNone true true
      [⟨"/z".data, 7⟩] "/a".data (by decide)⟩,
   ⟨by decide, C7_push_path_atomic_on_failure fsSome true true
      [⟨"/z".data, 7⟩] "/m".data (by decide)⟩,
   ⟨by decide, C7_push_path_atomic_on_failure fsSome false true
      [⟨"/z".data, 7⟩] "/a".data (by decide)⟩⟩

/-- C8: path uniqueness is an invariant - after any sequence of record-path
and load operations from the empty tracker no two entries share a path;
inserting a path already present updates that entry's mtime in place
(same path list, fresh mtime under lookup); and after a run of successful
record-path calls on inputs p1..pn from empty, the number of entries equals
the number of distinct canonical forms of the inputs. -/
theorem C8_path_uniqueness (fs : Fs) :
    (∀ ops : List Op, PathsUnique (runOps fs [] ops))
  ∧ (∀ (t : Tracker) (p : List Char) (m : Int) (e : UscStateEntry)
        (c s : Bool), usc_state_tracker_lookup t p = some e →
        usc_state_tracker_put_entry c s t p m = (true, putEntryUpdate t p m)
      ∧ paths (putEntryUpdate t p m) = paths t
      ∧ usc_state_tracker_lookup (putEntryUpdate t p m) p = some ⟨p, m⟩)
  ∧ (∀ ps : List (List Char), runPushesAllOk fs [] ps = true →
      (runPushes fs [] ps).length =
        ((ps.filterMap fs.realpath).toFinset).card) :=
  ⟨fun ops => pathsUnique_runOps fs ops []
      (by simp [PathsUnique, paths, List.nodup_nil]),
   fun t p m e c s h => ⟨put_entry_paths_of_some c s t p m e h,
      paths_putEntryUpdate p m t, lookup_putEntryUpdate_self p m t e h⟩,
   fun ps h => runPushes_length fs ps h⟩

/-- Witness for C8: an in-place update on a one-entry tracker, and a run of
three successful record-path calls with two distinct canonical paths. -/
theorem C8_witness :
    (usc_state_tracker_lookup [⟨"/x".data, 99⟩] "/x".data =
        some ⟨"/x".data, 99⟩
      ∧ (usc_state_tracker_put_entry true true [⟨"/x".data, 99⟩]
            "/x".data 5 =
          (true, putEntryUpdate [⟨"/x".data, 99⟩] "/x".data 5)
        ∧ paths (putEntryUpdate [⟨"/x".data, 99⟩] "/x".data 5) =
            paths [⟨"/x".data, 99⟩]
        ∧ usc_state_tracker_lookup
            (putEntryUpdate [⟨"/x".data, 99⟩] "/x".data 5) "/x".data =
            some ⟨"/x".data, 5⟩))
  ∧ (runPushesAllOk fsSome [] ["/a".data, "/b".data, "/a".data] = true
      ∧ (runPushes fsSome [] ["/a".data, "/b".data, "/a".data]).length =
          ((["/a".data, "/b".data, "/a".data].filterMap
              fsSome.realpath).toFinset).card) :=
  ⟨⟨by decide,
    (C8_path_uniqueness fsSome).2.1 [⟨"/x".data, 99⟩] "/x".data 5
      ⟨"/x".data, 99⟩ true true (by decide)⟩,
   ⟨by decide,
    (C8_path_uniqueness fsSome).2.2 ["/a".data, "/b".data, "/a".data]
      (by decide)⟩⟩

/-- C9: a missing state file is not an error for load - on ENOENT load
returns success with the tracker untouched; any other open failure makes
load return failure (also leaving the tracker untouched, state.c:195). -/
theorem C9_load_missing_file_ok (fs : Fs) (t : Tracker) :
    usc_state_tracker_load fs .enoent t = (true, t)
  ∧ (usc_state_tracker_load fs .otherErr t).1 = false :=
  ⟨rfl, rfl⟩

/-- C10: `needs-update` is a pure query - it returns the entry chain it was
given unchanged on every path, so a second identical call (on the tracker
the first one left behind, with the filesystem fixed) returns the same
boolean and the same tracker. -/
theorem C10_needs_update_pure (fs : Fs) (t : Tracker) (p : List Char)
    (force : Bool) :
    (usc_state_tracker_needs_update fs t p force).2 = t
  ∧ usc_state_tracker_needs_update fs
      (usc_state_tracker_needs_update fs t p force).2 p force =
      usc_state_tracker_needs_update fs t p force := by
  refine ⟨needs_update_snd_eq fs t p force, ?_⟩
  rw [needs_update_snd_eq fs t p force]

end Usysconf
